import Mathlib

/-!
Verification of the client-side voice-session orchestrator of the
movie-search voice chatbot (src/movie-search-voice-chatbot/src/
interface-handler-lambda/lib/javascript.js).

The embedding models:
- the audio front-end (`downsampleBuffer`, `pcmEncode`) with audio samples
  and sample rates as rationals (the JS code computes with IEEE doubles;
  the claims under scrutiny concern the exact window/length arithmetic and
  the clamp/scale structure, which are rate/index computations carried out
  exactly here),
- the playback sequencer (`queueProcessor` / `queueProcessorCompletedAction`)
  as a state machine over an explicit queue, processing flag, and the trace
  of started actions,
- the utterance assembler (`handleEventStreamMessage`) over an explicit
  state record, with the browser built-ins `decodeURIComponent` and
  `escape` abstracted as function parameters,
- the microphone data handler and the keepalive timer as functions from
  the relevant flags/state to the message that is sent,
- the transcription-channel error/close handlers as effect records.
-/

namespace VoiceChat

/-! ## Audio front-end -/

/-- Model of JavaScript `Math.round` on a rational argument: round half
toward positive infinity, i.e. `⌊q + 1/2⌋`. -/
def jsRound (q : ℚ) : ℤ := ⌊q + 1/2⌋

/-- Indices of the downsampling window `[lo, hi)` that are in range of a
buffer of length `len`; models the loop
`for (i = offsetBuffer; i < nextOffsetBuffer && i < buffer.length; i++)`
of `downsampleBuffer` (all in-range indices are nonnegative, as in the
source where `offsetBuffer` starts at 0 and only increases for positive
rates). -/
def windowIdx (lo hi : ℤ) (len : ℕ) : List ℕ :=
  (List.range len).filter (fun i => decide (lo ≤ (i:ℤ) ∧ (i:ℤ) < hi))

/-- Buffer values accumulated by one iteration of the outer loop of
`downsampleBuffer`: the samples at the indices of `windowIdx`. -/
def windowVals (buffer : List ℚ) (lo hi : ℤ) : List ℚ :=
  (windowIdx lo hi buffer.length).map (fun i => buffer.getD i 0)

/-- Window boundary used by `downsampleBuffer` for output index `k`:
`Math.round(k * sampleRateRatio)` (the source keeps the previous
`nextOffsetBuffer` in `offsetBuffer`, which equals this expression,
including for `k = 0` where both are `0`). -/
def dsOffset (sampleRateRatio : ℚ) (k : ℕ) : ℤ :=
  jsRound ((k : ℚ) * sampleRateRatio)

/-- Number of input samples accumulated for output index `k`
(the `count` variable of `downsampleBuffer`). -/
def dsWindowCount (buffer : List ℚ) (sampleRateRatio : ℚ) (k : ℕ) : ℕ :=
  (windowIdx (dsOffset sampleRateRatio k) (dsOffset sampleRateRatio (k+1))
    buffer.length).length

/-- Output sample of `downsampleBuffer` at index `k`: `accum / count` over
the window `[round(k*ratio), round((k+1)*ratio))` intersected with the
buffer range. Division by a zero length is the junk value `0` of rational
division; the source produces NaN there (see the claim about window
counts). -/
def dsSample (buffer : List ℚ) (sampleRateRatio : ℚ) (k : ℕ) : ℚ :=
  (windowVals buffer (dsOffset sampleRateRatio k)
      (dsOffset sampleRateRatio (k+1))).sum
    / ((windowVals buffer (dsOffset sampleRateRatio k)
      (dsOffset sampleRateRatio (k+1))).length : ℚ)

/-- Outer `while (offsetResult < result.length)` loop of
`downsampleBuffer`: `n` iterations remain, `offsetBuffer` is the current
lower window bound, `offsetResult` the current output index. -/
def dsLoop (buffer : List ℚ) (sampleRateRatio : ℚ) :
    ℕ → ℤ → ℕ → List ℚ
  | 0, _, _ => []
  | n+1, offsetBuffer, offsetResult =>
    let nextOffsetBuffer := jsRound (((offsetResult : ℚ) + 1) * sampleRateRatio)
    let w := windowVals buffer offsetBuffer nextOffsetBuffer
    (w.sum / (w.length : ℚ)) ::
      dsLoop buffer sampleRateRatio n nextOffsetBuffer (offsetResult + 1)

/-- Model of `downsampleBuffer(buffer, inputSampleRate, outputSampleRate)`:
identity when the rates coincide, otherwise `Math.round(length/ratio)`
output samples, each the average over a window with rounded cumulative
boundaries. -/
def downsampleBuffer (buffer : List ℚ)
    (inputSampleRate outputSampleRate : ℚ) : List ℚ :=
  if outputSampleRate = inputSampleRate then buffer
  else
    let sampleRateRatio := inputSampleRate / outputSampleRate
    let newLength := (jsRound ((buffer.length : ℚ) / sampleRateRatio)).toNat
    dsLoop buffer sampleRateRatio newLength 0 0

/-- Truncation toward zero, as performed by `DataView.setInt16` on a
non-integral JavaScript number. -/
def jsTruncInt (q : ℚ) : ℤ := if 0 ≤ q then ⌊q⌋ else ⌈q⌉

/-- Per-sample body of `pcmEncode`: clamp to `[-1, 1]` with
`Math.max(-1, Math.min(1, input[i]))`, then scale negative values by
`0x8000 = 32768` and non-negative values by `0x7fff = 32767`, truncated to
an integer by `setInt16`. -/
def pcmEncodeSample (x : ℚ) : ℤ :=
  let s := max (-1) (min 1 x)
  jsTruncInt (if s < 0 then s * 32768 else s * 32767)

/-- Little-endian byte pair written by `view.setInt16(offset, v, true)`:
the value is reduced mod `2^16` and stored low byte first. -/
def int16LEBytes (v : ℤ) : List ℤ := [(v % 65536) % 256, (v % 65536) / 256]

/-- Model of `pcmEncode(input)`: the output byte buffer, two bytes
(little endian) per input sample. -/
def pcmEncode (input : List ℚ) : List ℤ :=
  input.flatMap (fun x => int16LEBytes (pcmEncodeSample x))

/-! ## Playback sequencer (action queue) -/

/-- Queue item handled by `queueProcessor`: the `action` tag, the payload
`value`, and the optional `type` field consulted by the
`DISPLAY_RESPONSE` branch. -/
structure QItem where
  action : String
  value : String := ""
  type : String := ""
deriving DecidableEq, Repr

/-- Dispatch structure of `queueProcessor`'s if/else-if chain: `true` when
the branch taken for this item calls `queueProcessorCompletedAction()`
synchronously, `false` for the three `audioPlay` branches that wait for
the audio element's `ended` event. The branch order mirrors the source. -/
def processQueueItemSync (item : QItem) : Bool :=
  if item.action = "PLAY_RESPONSE" then false
  else if item.action = "PLAY_FEEDBACK" then false
  else if item.action = "PLAY_RINGTONE" then false
  else if item.action = "DISPLAY_RESPONSE" ∧ item.type = "IMAGE" then true
  else if item.action = "DISPLAY_RESPONSE" then true
  else if item.action = "DISPLAY_FEEDBACK" then true
  else if item.action = "REASONING" then true
  else if item.action = "TRANSCRIBE_CONNECTION" then true
  else if item.action = "FEEDBACK_END" then true
  else if item.action = "WAIT" then true
  else if item.action = "ERROR" then true
  else true

/-- Action tags for which `queueProcessor` has a dedicated branch. -/
def recognizedActions : List String :=
  ["PLAY_RESPONSE", "PLAY_FEEDBACK", "PLAY_RINGTONE", "DISPLAY_RESPONSE",
   "DISPLAY_FEEDBACK", "REASONING", "TRANSCRIBE_CONNECTION", "FEEDBACK_END",
   "WAIT", "ERROR"]

/-- Sequencer state: the pending `websocketQueue`, the `isQueueProcessing`
flag, and the trace of items whose processing has been started, in start
order. -/
structure QState where
  websocketQueue : List QItem
  isQueueProcessing : Bool
  executed : List QItem
deriving DecidableEq, Repr

/-- Drain step of `queueProcessor`
(`if (websocketQueue.length && !isQueueProcessing) { ... }`): with the
flag clear and the queue non-empty, set the flag, shift the head item and
start it; a synchronous branch then runs
`queueProcessorCompletedAction()`, i.e. clears the flag and re-enters the
drain on the remaining queue, while a playback branch leaves the flag set
until the audio `ended` event. Arguments are the `websocketQueue`, the
`isQueueProcessing` flag and the trace of started items. -/
def queueDrain : List QItem → Bool → List QItem → QState
  | [], flag, ex => ⟨[], flag, ex⟩
  | item :: rest, true, ex => ⟨item :: rest, true, ex⟩
  | item :: rest, false, ex =>
    if processQueueItemSync item then queueDrain rest false (ex ++ [item])
    else ⟨rest, true, ex ++ [item]⟩

/-- Model of `queueProcessor(data)`: push `data` if non-null, then drain. -/
def queueProcessor (data : Option QItem) (s : QState) : QState :=
  let q := match data with
    | some d => s.websocketQueue ++ [d]
    | none => s.websocketQueue
  queueDrain q s.isQueueProcessing s.executed

/-- Model of `queueProcessorCompletedAction()`: clear `isQueueProcessing`
and call `queueProcessor(null)`. The audio element's `ended` listener
invokes exactly this function. -/
def queueProcessorCompletedAction (s : QState) : QState :=
  queueProcessor none ⟨s.websocketQueue, false, s.executed⟩

/-- External stimuli that drive the sequencer: an inbound message (the
control channel calls `queueProcessor(data)`) or the audio `ended` event
(which calls `queueProcessorCompletedAction()`). -/
inductive QEvent where
  | message (item : QItem)
  | audioEnded
deriving DecidableEq, Repr

/-- One stimulus applied to a sequencer state. -/
def qStep (s : QState) : QEvent → QState
  | QEvent.message item => queueProcessor (some item) s
  | QEvent.audioEnded => queueProcessorCompletedAction s

/-- Sequencer run from the initial state (empty queue, flag clear, empty
trace). -/
def qRun (events : List QEvent) : QState :=
  events.foldl qStep ⟨[], false, []⟩

/-- Items enqueued by a stimulus sequence, in arrival order. -/
def arrivals (events : List QEvent) : List QItem :=
  events.filterMap (fun e => match e with
    | QEvent.message item => some item
    | QEvent.audioEnded => none)

/-! ## Utterance assembler -/

/-- JavaScript word character (`\w` of the regex `\W+`):
ASCII letter, digit, or underscore. -/
def isWordChar (c : Char) : Bool := c.isAlphanum || c = '_'

/-- Worker for `jsSplitNonWord`. The second argument is `some cur` while a
token `cur` is being built, and `none` while a run of non-word separator
characters is being skipped (in which case a trailing empty token is still
produced at the end, as JavaScript `split` does). -/
def splitNWGo : List Char → Option String → List String
  | [], none => [""]
  | [], some cur => [cur]
  | c :: rest, none =>
    if isWordChar c then splitNWGo rest (some (String.mk [c]))
    else splitNWGo rest none
  | c :: rest, some cur =>
    if isWordChar c then splitNWGo rest (some (cur.push c))
    else cur :: splitNWGo rest none

/-- Model of JavaScript `s.split(/\W+/)`: split on maximal runs of
non-word characters, producing empty leading/trailing tokens when the
string starts/ends with a separator, and `[""]` on the empty string. -/
def jsSplitNonWord (s : String) : List String :=
  splitNWGo s.data (some "")

/-- Model of JavaScript `String.prototype.trim`: drop whitespace from both
ends. -/
def jsTrim (s : String) : String :=
  String.mk (((s.data.dropWhile Char.isWhitespace).reverse.dropWhile
    Char.isWhitespace).reverse)

/-- Alternative of a transcript result (`Alternatives[i]`), carrying the
recognized `Transcript` text. -/
structure Alt where
  transcript : String
deriving DecidableEq, Repr

/-- Transcript result (`Results[i]`); `interim` models the `IsPartial`
field (true while the recognition of the utterance is still in
progress). -/
structure TResult where
  interim : Bool
  alternatives : List Alt
deriving DecidableEq, Repr

/-- Transcript event body (`messageJson.Transcript.Results`). -/
structure TEvent where
  results : List TResult
deriving DecidableEq, Repr

/-- State touched by `handleEventStreamMessage`: the accumulation buffer
`transcription`, the pending-utterance buffer `utterance`, the
`utteranceLastEvent` timestamp, the `inputText` field value, whether the
send button is enabled, and the trace of utterance texts dispatched by
clicks of the send button. -/
structure UState where
  transcription : String
  utterance : String
  utteranceLastEvent : Option ℕ
  inputTextValue : String
  sendButtonEnabled : Bool
  sentUtterances : List String
deriving DecidableEq, Repr

/-- Initial assembler state: both buffers empty, no timestamp, empty text
field, send button disabled, nothing dispatched. -/
def initUState : UState := ⟨"", "", none, "", false, []⟩

/-- Model of the send button's `click` listener, restricted to the effects
visible to the utterance assembler: when the text field is non-empty, its
content is dispatched (`sendUtterance`), the field is cleared and the
button disabled. The listener's DOM/status updates, queue clearing and
`isListening` reset concern state outside `UState`. -/
def sendButtonClick (s : UState) : UState :=
  if 0 < s.inputTextValue.length then
    { s with sentUtterances := s.sentUtterances ++ [s.inputTextValue],
             inputTextValue := "", sendButtonEnabled := false }
  else s

/-- Model of `handleEventStreamMessage(messageJson)`. `decURI` models the
browser built-in `decodeURIComponent` applied to each received transcript;
`escDec` models `decodeURIComponent(escape(u))`, with `none` standing for
a thrown `URIError` (the `catch` keeps the buffer unchanged). `isListening`
and `allowAudioInputOnly` are the global flags read by the handler. -/
def handleEventStreamMessage (decURI : String → String)
    (escDec : String → Option String)
    (isListening allowAudioInputOnly : Bool) (now : ℕ)
    (messageJson : TEvent) (s : UState) : UState :=
  match messageJson.results with
  | r :: _ =>
    match r.alternatives with
    | a :: _ =>
      let s1 := { s with utteranceLastEvent := some now }
      let transcript := decURI a.transcript
      if r.interim = false then
        let transcription := s1.transcription ++ transcript ++ "\n"
        { s1 with utterance := s1.utterance ++ transcription,
                  transcription := "" }
      else s1
    | [] => s
  | [] =>
    if isListening = false then
      if 2 < (jsSplitNonWord (jsTrim s.utterance)).length then
        let u := match escDec s.utterance with
          | some d => d
          | none => s.utterance
        let s1 := { s with utterance := u }
        let s2 := { s1 with
          inputTextValue := s1.inputTextValue ++ " " ++ s1.utterance,
          sendButtonEnabled := true }
        let s3 := if allowAudioInputOnly then sendButtonClick s2 else s2
        { s3 with utterance := "", transcription := "" }
      else s
    else s

/-- True when the event carries at least one result and that first result
is an interim (`IsPartial`) one. -/
def interimEvent (ev : TEvent) : Bool :=
  match ev.results with
  | r :: _ => r.interim
  | [] => false

/-- Fold of `handleEventStreamMessage` over a sequence of transcript
events, each paired with the value of the `isListening` flag at the moment
its callback runs. -/
def runUtterance (decURI : String → String) (escDec : String → Option String)
    (allowAudioInputOnly : Bool) (now : ℕ)
    (events : List (Bool × TEvent)) (s : UState) : UState :=
  events.foldl (fun st e =>
    handleEventStreamMessage decURI escDec e.1 allowAudioInputOnly now e.2 st) s

/-! ## Transcription channel: microphone data handler -/

/-- Event-stream message built by `getAudioEventMessage` and marshalled
for the transcription socket: the two string headers and the PCM body
bytes (bit-level marshalling is performed by the external
`eventstream-marshaller` library and is not re-modelled). -/
structure AudioMsg where
  messageType : String
  eventType : String
  body : List ℤ
deriving DecidableEq, Repr

/-- Model of `getAudioEventMessage(buffer)`. -/
def getAudioEventMessage (body : List ℤ) : AudioMsg :=
  ⟨"event", "AudioEvent", body⟩

/-- Model of `convertAudioToBinaryMessage(audioChunk)`. The argument is
the chunk after `mic.toRaw`, i.e. an optional list of float samples
(`none` models the `raw == null` early return, which yields `undefined`). -/
def convertAudioToBinaryMessage (raw : Option (List ℚ))
    (micSampleRate transcribeSampleRate : ℚ) : Option AudioMsg :=
  match raw with
  | none => none
  | some r =>
    some (getAudioEventMessage
      (pcmEncode (downsampleBuffer r micSampleRate transcribeSampleRate)))

/-- Raw view of the silence frame `new Uint8Array(16384)`: 16384 zero
bytes reinterpreted by `mic.toRaw` as 4096 zero float32 samples. -/
def silenceRaw : List ℚ := List.replicate 4096 0

/-- Model of the `micStream.on('data', ...)` callback installed on socket
open: the message sent on the transcription socket for one captured
chunk, given the socket's `readyState` (`1` = OPEN, the value of
`websocketTranscribe.OPEN`), the `isSpeaking`/`isListening` flags, and
the chunk itself. The live chunk is framed and sent only when the socket
is open, not speaking, and listening; otherwise the zero silence frame is
framed through the same conversion and sent. -/
def micDataMessage (readyState : ℕ) (isSpeaking isListening : Bool)
    (chunk : Option (List ℚ)) (micSampleRate transcribeSampleRate : ℚ) :
    Option AudioMsg :=
  if readyState = 1 ∧ isSpeaking = false ∧ isListening = true then
    convertAudioToBinaryMessage chunk micSampleRate transcribeSampleRate
  else
    convertAudioToBinaryMessage (some silenceRaw) micSampleRate
      transcribeSampleRate

/-! ## Transcription channel: error and close handlers -/

/-- Effects of one event listener relevant to the error-handling claims:
whether `micStream.stop()` ran, whether `showErrorMessage` ran, and
whether a reconnect of the channel was initiated (a call of its connect
function). -/
structure HandlerEffects where
  micStopped : Bool
  errorShown : Bool
  reconnectStarted : Bool
deriving DecidableEq, Repr

/-- Effects of the transcription socket's `error` listener: it logs and
shows the error dialog; the trailing statement `websocketTranscribeConnect;`
is a bare function reference, not a call, so no reconnect is initiated,
and the listener contains no `micStream.stop()`. -/
def transcribeOnError : HandlerEffects :=
  ⟨false, true, false⟩

/-- Effects of the transcription socket's `close` listener:
`micStream.stop()` runs unconditionally; for a close code other than 1000
the error dialog is shown and the trailing bare reference
`websocketTranscribeConnect;` again initiates no reconnect. -/
def transcribeOnClose (code : ℤ) : HandlerEffects :=
  ⟨true, if code = 1000 then false else true, false⟩

/-- Effects of the application (control) socket's `error` listener: it
calls `websocketApplicationConnect()`, i.e. reconnects immediately. -/
def applicationOnError : HandlerEffects :=
  ⟨false, false, true⟩

/-- Sequential composition of listener effects. -/
def seqEffects (a b : HandlerEffects) : HandlerEffects :=
  ⟨a.micStopped || b.micStopped, a.errorShown || b.errorShown,
   a.reconnectStarted || b.reconnectStarted⟩

/-- Observable effect of an error on the transcription channel: the
`error` listener fires and, per the WebSocket event model, the connection
then closes abnormally (code 1006, never the normal code 1000), firing the
`close` listener. -/
def transcribeErrorPath : HandlerEffects :=
  seqEffects transcribeOnError (transcribeOnClose 1006)

/-! ## Control channel: queue processor and keepalive timer -/

/-- Message on the application websocket; only the `action` field matters
to the claims modelled here. -/
structure AppMsg where
  action : String
  payload : String := ""
deriving DecidableEq, Repr

/-- Control channel state: the socket, when one has ever been created
(`none` models the `websocketApplication` variable still being
`undefined`), carrying its `readyState`, plus the outbound
`websocketApplicationQueue`. -/
structure AppChannelState where
  websocketApplication : Option ℕ
  websocketApplicationQueue : List AppMsg
deriving DecidableEq, Repr

/-- Model of `websocketApplicationQueueProcessor(data)`: push `data` if
non-null; then, if the queue is non-empty and the socket exists with
`readyState === 1`, send every queued message in order. Returns the new
state and the list of messages sent. -/
def websocketApplicationQueueProcessor (data : Option AppMsg)
    (s : AppChannelState) : AppChannelState × List AppMsg :=
  let q := match data with
    | some d => s.websocketApplicationQueue ++ [d]
    | none => s.websocketApplicationQueue
  match s.websocketApplication with
  | some rs =>
    if q ≠ [] ∧ rs = 1 then ({ s with websocketApplicationQueue := [] }, q)
    else ({ s with websocketApplicationQueue := q }, [])
  | none => ({ s with websocketApplicationQueue := q }, [])

/-- Interval of the keepalive `setInterval` in milliseconds. -/
def keepaliveIntervalMs : ℕ := 60000

/-- Model of one keepalive timer tick: when no application websocket
exists, `websocketApplicationConnect()` is called (first component
`true`; connection setup itself is asynchronous and leaves the modelled
state unchanged); otherwise a `{action: "ping"}` message is handed to
`websocketApplicationQueueProcessor`. -/
def keepaliveTick (s : AppChannelState) :
    Bool × AppChannelState × List AppMsg :=
  match s.websocketApplication with
  | none => (true, s, [])
  | some _ =>
    (false, websocketApplicationQueueProcessor (some ⟨"ping", ""⟩) s)

/-! ## Claim C7: transcription-channel error handling -/

/-- C7: on a transcription-channel error event (whose abnormal close, code
1006, follows per the WebSocket event model) and on every abnormal close
(code other than 1000), the microphone capture is stopped, a user-visible
error is surfaced, and no reconnect of the transcription channel is
initiated, in contrast to the control channel, whose error listener
reconnects. -/
theorem transcribe_error_close_c7 :
    (transcribeErrorPath.micStopped = true
      ∧ transcribeErrorPath.errorShown = true
      ∧ transcribeErrorPath.reconnectStarted = false)
    ∧ (∀ code : ℤ, code ≠ 1000 →
        transcribeOnClose code = ⟨true, true, false⟩)
    ∧ applicationOnError.reconnectStarted = true := by
  refine ⟨⟨rfl, rfl, rfl⟩, ?_, rfl⟩
  intro code h
  simp [transcribeOnClose, h]

/-- Witness for C7 at the abnormal close code 1006. -/
theorem transcribe_error_close_c7_witness :
    (1006 : ℤ) ≠ 1000 ∧ transcribeOnClose 1006 = ⟨true, true, false⟩ :=
  ⟨by decide, transcribe_error_close_c7.2.1 1006 (by decide)⟩

/-! ## Claim C8: keepalive timer tick -/

/-- C8: the keepalive timer runs at a fixed 60-second interval; on a tick
with no control-channel connection a reconnect is initiated, and otherwise
a `{action: "ping"}` message is enqueued for sending on the control
channel (ending up either sent or queued, after all previously queued
messages); exactly one of the two happens per tick. -/
theorem keepalive_c8 (s : AppChannelState) :
    keepaliveIntervalMs = 60 * 1000
    ∧ (s.websocketApplication = none → keepaliveTick s = (true, s, []))
    ∧ (∀ rs, s.websocketApplication = some rs →
        (keepaliveTick s).1 = false
        ∧ (keepaliveTick s).2.2
            ++ (keepaliveTick s).2.1.websocketApplicationQueue
          = s.websocketApplicationQueue ++ [⟨"ping", ""⟩]) := by
  obtain ⟨ws, q⟩ := s
  refine ⟨rfl, ?_, ?_⟩
  · intro h
    simp only at h
    subst h
    rfl
  · intro rs h
    simp only at h
    subst h
    refine ⟨rfl, ?_⟩
    simp only [keepaliveTick, websocketApplicationQueueProcessor]
    split
    · simp
    · simp

/-- Witness for C8: one tick with no connection yet, one tick with an open
connection and a previously queued message. -/
theorem keepalive_c8_witness :
    keepaliveTick ⟨none, []⟩ = (true, ⟨none, []⟩, [])
    ∧ ((keepaliveTick ⟨some 1, [⟨"a", ""⟩]⟩).1 = false
      ∧ (keepaliveTick ⟨some 1, [⟨"a", ""⟩]⟩).2.2
          ++ (keepaliveTick ⟨some 1, [⟨"a", ""⟩]⟩).2.1.websocketApplicationQueue
        = [⟨"a", ""⟩] ++ [⟨"ping", ""⟩]) :=
  ⟨(keepalive_c8 ⟨none, []⟩).2.1 rfl,
   (keepalive_c8 ⟨some 1, [⟨"a", ""⟩]⟩).2.2 1 rfl⟩

/-! ## Claim C2: silence frames while speaking or not listening -/

/-- C2: for a captured chunk handled while the transcription socket is
open (`readyState` 1), if `isSpeaking` is true or `isListening` is false,
the message sent is the 16384-byte zero silence frame put through the same
conversion as live audio, and it is independent of the captured chunk's
bytes; the live chunk is framed and sent exactly when the socket is open,
not speaking, and listening. -/
theorem mic_silence_c2 (isSpeaking isListening : Bool)
    (chunk chunk' : Option (List ℚ)) (micRate tRate : ℚ) :
    ((isSpeaking = true ∨ isListening = false) →
      micDataMessage 1 isSpeaking isListening chunk micRate tRate
          = convertAudioToBinaryMessage (some silenceRaw) micRate tRate
        ∧ micDataMessage 1 isSpeaking isListening chunk micRate tRate
          = micDataMessage 1 isSpeaking isListening chunk' micRate tRate)
    ∧ (isSpeaking = false → isListening = true →
        micDataMessage 1 isSpeaking isListening chunk micRate tRate
          = convertAudioToBinaryMessage chunk micRate tRate) := by
  constructor
  · intro h
    rcases h with h | h
    · subst h
      simp [micDataMessage]
    · subst h
      simp [micDataMessage]
  · intro h1 h2
    simp [micDataMessage, h1, h2]

/-- Witness for C2: while speaking, two different chunks produce the same
silence message; while listening and not speaking, the live chunk is
framed. -/
theorem mic_silence_c2_witness :
    (micDataMessage 1 true true (some [1]) 44100 16000
        = convertAudioToBinaryMessage (some silenceRaw) 44100 16000
      ∧ micDataMessage 1 true true (some [1]) 44100 16000
        = micDataMessage 1 true true (some [2, 3]) 44100 16000)
    ∧ micDataMessage 1 false true (some [1]) 44100 16000
        = convertAudioToBinaryMessage (some [1]) 44100 16000 :=
  ⟨(mic_silence_c2 true true (some [1]) (some [2, 3]) 44100 16000).1
      (Or.inl rfl),
   (mic_silence_c2 false true (some [1]) (some [2, 3]) 44100 16000).2 rfl rfl⟩

/-! ## Claim C9: unrecognized actions never stall the queue -/

/-- Unrecognized action tags fall through to the final `else`, which
signals completion synchronously. -/
theorem processQueueItemSync_unrecognized (item : QItem)
    (h : item.action ∉ recognizedActions) : processQueueItemSync item = true := by
  simp only [recognizedActions, List.mem_cons, List.mem_singleton, not_or,
    List.not_mem_nil] at h
  obtain ⟨h1, h2, h3, h4, h5, h6, h7, h8, h9, h10, -⟩ := h
  simp [processQueueItemSync, h1, h2, h3, h4, h5, h6, h7, h8, h9, h10]

/-- Draining a queue of items with unrecognized tags consumes all of them,
appends them to the started trace in order, and ends with the flag clear
and the queue empty. -/
theorem queueDrain_unrecognized (items : List QItem) :
    ∀ ex, (∀ it ∈ items, it.action ∉ recognizedActions) →
      queueDrain items false ex = ⟨[], false, ex ++ items⟩ := by
  induction items with
  | nil => intro ex _; simp [queueDrain]
  | cons item rest ih =>
    intro ex h
    have h1 : processQueueItemSync item = true :=
      processQueueItemSync_unrecognized item (h item (by simp))
    have h2 := ih (ex ++ [item]) (fun it hit => h it (by simp [hit]))
    simp [queueDrain, h1, h2]

/-- C9: every dequeued item whose action tag is not among the recognized
kinds is handled by the final `else`, which immediately signals completion
(synchronous branch), and a whole queue of such items is consumed without
effect on the flag and without stalling: draining executes them all and
ends with an empty queue and the flag clear. -/
theorem queue_unrecognized_c9 :
    (∀ item : QItem, item.action ∉ recognizedActions →
      processQueueItemSync item = true)
    ∧ (∀ (items ex : List QItem),
        (∀ it ∈ items, it.action ∉ recognizedActions) →
        queueDrain items false ex = ⟨[], false, ex ++ items⟩) :=
  ⟨processQueueItemSync_unrecognized, fun items ex h =>
    queueDrain_unrecognized items ex h⟩

/-- Witness for C9: two items with unrecognized tags are both consumed in
one drain. -/
theorem queue_unrecognized_c9_witness :
    processQueueItemSync ⟨"BOGUS", "", ""⟩ = true
    ∧ queueDrain [⟨"BOGUS", "", ""⟩, ⟨"NOPE", "", ""⟩] false []
      = ⟨[], false, [] ++ [⟨"BOGUS", "", ""⟩, ⟨"NOPE", "", ""⟩]⟩ :=
  ⟨queue_unrecognized_c9.1 ⟨"BOGUS", "", ""⟩ (by decide),
   queue_unrecognized_c9.2 [⟨"BOGUS", "", ""⟩, ⟨"NOPE", "", ""⟩] []
     (by decide)⟩

/-! ## Claim C6: PCM encoding clamp, asymmetric scale, range -/

/-- Ceiling of the rational literal -32768. -/
theorem ceil_neg_32768 : ⌈(-32768 : ℚ)⌉ = -32768 := by
  rw [show ((-32768 : ℚ)) = ((-32768 : ℤ) : ℚ) by norm_num, Int.ceil_intCast]

/-- Floor of the rational literal 32767. -/
theorem floor_32767 : ⌊(32767 : ℚ)⌋ = 32767 := by
  rw [show ((32767 : ℚ)) = ((32767 : ℤ) : ℚ) by norm_num, Int.floor_intCast]

/-- Inputs at or below the clamp bound -1 all encode to -32768. -/
theorem pcmEncodeSample_le_neg_one (x : ℚ) (h : x ≤ -1) :
    pcmEncodeSample x = -32768 := by
  have h1 : min (1 : ℚ) x = x := min_eq_right (h.trans (by norm_num))
  have h2 : max (-1 : ℚ) x = -1 := max_eq_left h
  simp only [pcmEncodeSample, h1, h2, jsTruncInt]
  rw [if_pos (show (-1 : ℚ) < 0 by norm_num)]
  rw [show ((-1 : ℚ) * 32768) = -32768 by norm_num]
  rw [if_neg (by norm_num)]
  exact ceil_neg_32768

/-- Inputs at or above the clamp bound 1 all encode to 32767. -/
theorem pcmEncodeSample_ge_one (x : ℚ) (h : 1 ≤ x) :
    pcmEncodeSample x = 32767 := by
  have h1 : min (1 : ℚ) x = 1 := min_eq_left h
  have h2 : max (-1 : ℚ) (1 : ℚ) = 1 := max_eq_right (by norm_num)
  simp only [pcmEncodeSample, h1, h2, jsTruncInt]
  rw [if_neg (show ¬ ((1 : ℚ) < 0) by norm_num)]
  rw [show ((1 : ℚ) * 32767) = 32767 by norm_num]
  rw [if_pos (by norm_num)]
  exact floor_32767

/-- Every encoded sample lies in the signed 16-bit range. -/
theorem pcmEncodeSample_range (x : ℚ) :
    -32768 ≤ pcmEncodeSample x ∧ pcmEncodeSample x ≤ 32767 := by
  have hs1 : (-1 : ℚ) ≤ max (-1) (min 1 x) := le_max_left _ _
  have hs2 : max (-1 : ℚ) (min 1 x) ≤ 1 := max_le (by norm_num) (min_le_left _ _)
  simp only [pcmEncodeSample, jsTruncInt]
  by_cases hneg : max (-1 : ℚ) (min 1 x) < 0
  · rw [if_pos hneg]
    have hq : ¬ (0 ≤ max (-1 : ℚ) (min 1 x) * 32768) := by
      push_neg
      exact mul_neg_of_neg_of_pos hneg (by norm_num)
    rw [if_neg hq]
    constructor
    · have h1 : (-32768 : ℚ) ≤ max (-1) (min 1 x) * 32768 := by
        have := mul_le_mul_of_nonneg_right hs1 (show (0:ℚ) ≤ 32768 by norm_num)
        linarith
      calc (-32768 : ℤ) = ⌈(-32768 : ℚ)⌉ := ceil_neg_32768.symm
        _ ≤ ⌈max (-1 : ℚ) (min 1 x) * 32768⌉ := Int.ceil_mono h1
    · have h2 : max (-1 : ℚ) (min 1 x) * 32768 ≤ 0 :=
        le_of_lt (mul_neg_of_neg_of_pos hneg (by norm_num))
      have h3 : ⌈max (-1 : ℚ) (min 1 x) * 32768⌉ ≤ 0 := by
        rw [show (0 : ℤ) = ((0 : ℤ)) from rfl, Int.ceil_le]
        exact_mod_cast h2
      omega
  · rw [if_neg hneg]
    have hge : 0 ≤ max (-1 : ℚ) (min 1 x) := not_lt.mp hneg
    have hq : 0 ≤ max (-1 : ℚ) (min 1 x) * 32767 :=
      mul_nonneg hge (by norm_num)
    rw [if_pos hq]
    constructor
    · have := Int.floor_nonneg.mpr hq
      omega
    · have h2 : max (-1 : ℚ) (min 1 x) * 32767 ≤ 32767 := by
        have := mul_le_mul_of_nonneg_right hs2 (show (0:ℚ) ≤ 32767 by norm_num)
        linarith
      calc ⌊max (-1 : ℚ) (min 1 x) * 32767⌋ ≤ ⌊(32767 : ℚ)⌋ := Int.floor_mono h2
        _ = 32767 := floor_32767

/-- C6: PCM encoding clamps each float sample to [-1, 1], scales negative
values by 32768 and non-negative values by 32767, and writes the result as
little-endian signed 16 bits: -1 encodes to -32768 and 1 to 32767, inputs
beyond the clamp bounds encode to the same extremes, every encoded value
lies in the signed-16-bit range, and the two bytes emitted for a sample
are byte-ranged and reconstruct the encoded value mod 2^16 low byte
first. -/
theorem pcm_encode_c6 (x : ℚ) :
    (-32768 ≤ pcmEncodeSample x ∧ pcmEncodeSample x ≤ 32767)
    ∧ pcmEncodeSample (-1) = -32768
    ∧ pcmEncodeSample 1 = 32767
    ∧ (x ≤ -1 → pcmEncodeSample x = -32768)
    ∧ (1 ≤ x → pcmEncodeSample x = 32767)
    ∧ pcmEncode [x] = int16LEBytes (pcmEncodeSample x)
    ∧ (0 ≤ (int16LEBytes (pcmEncodeSample x)).getD 0 0
        ∧ (int16LEBytes (pcmEncodeSample x)).getD 0 0 < 256
        ∧ 0 ≤ (int16LEBytes (pcmEncodeSample x)).getD 1 0
        ∧ (int16LEBytes (pcmEncodeSample x)).getD 1 0 < 256
        ∧ (int16LEBytes (pcmEncodeSample x)).getD 0 0
            + 256 * (int16LEBytes (pcmEncodeSample x)).getD 1 0
          = pcmEncodeSample x % 65536) := by
  refine ⟨pcmEncodeSample_range x,
    pcmEncodeSample_le_neg_one (-1) (by norm_num),
    pcmEncodeSample_ge_one 1 (by norm_num),
    fun h => pcmEncodeSample_le_neg_one x h,
    fun h => pcmEncodeSample_ge_one x h,
    by simp [pcmEncode],
    ?_⟩
  simp only [int16LEBytes, List.getD_cons_zero, List.getD_cons_succ]
  refine ⟨?_, ?_, ?_, ?_, ?_⟩ <;> omega

/-- Witness for C6: the clamp hypotheses discharged at -2 and at 2. -/
theorem pcm_encode_c6_witness :
    ((-2 : ℚ) ≤ -1 ∧ pcmEncodeSample (-2) = -32768)
    ∧ ((1 : ℚ) ≤ 2 ∧ pcmEncodeSample 2 = 32767)
    ∧ (-32768 ≤ pcmEncodeSample 2 ∧ pcmEncodeSample 2 ≤ 32767) :=
  ⟨⟨by decide, (pcm_encode_c6 (-2)).2.2.2.1 (by decide)⟩,
   ⟨by decide, (pcm_encode_c6 2).2.2.2.2.1 (by decide)⟩,
   (pcm_encode_c6 2).1⟩

/-! ## Claim C1: FIFO order and mutual exclusion in the sequencer -/

/-- Draining with the processing flag set does nothing. -/
theorem queueDrain_busy (q : List QItem) (ex : List QItem) :
    queueDrain q true ex = ⟨q, true, ex⟩ := by
  cases q <;> rfl

/-- Draining preserves the multiset and order of items: the started trace
followed by the remaining queue equals the prior trace followed by the
prior queue. -/
theorem queueDrain_exec_queue (q : List QItem) :
    ∀ (p : Bool) (ex : List QItem),
      (queueDrain q p ex).executed ++ (queueDrain q p ex).websocketQueue
        = ex ++ q := by
  induction q with
  | nil => intro p ex; simp [queueDrain]
  | cons item rest ih =>
    intro p ex
    cases p with
    | true => simp [queueDrain]
    | false =>
      simp only [queueDrain]
      split
      · rw [ih false (ex ++ [item])]
        simp
      · simp

/-- Draining only ever appends to the started trace. -/
theorem queueDrain_exec_extends (q : List QItem) :
    ∀ (p : Bool) (ex : List QItem),
      ∃ t, (queueDrain q p ex).executed = ex ++ t := by
  induction q with
  | nil => intro p ex; exact ⟨[], by simp [queueDrain]⟩
  | cons item rest ih =>
    intro p ex
    cases p with
    | true => exact ⟨[], by simp [queueDrain]⟩
    | false =>
      simp only [queueDrain]
      split
      · obtain ⟨t, ht⟩ := ih false (ex ++ [item])
        exact ⟨item :: t, by simp [ht]⟩
      · exact ⟨[item], rfl⟩

/-- Taking one element past a list prefix. -/
theorem take_append_cons {α : Type} (ex : List α) (x : α) (t : List α) :
    (ex ++ x :: t).take (ex.length + 1) = ex ++ [x] := by
  induction ex with
  | nil => simp
  | cons a ex ih => simp [List.take, ih]

/-- Stimulus steps preserve the arrival order of items across trace and
queue. -/
theorem qRun_fifo_aux (events : List QEvent) :
    ∀ s : QState,
      (events.foldl qStep s).executed ++ (events.foldl qStep s).websocketQueue
        = s.executed ++ s.websocketQueue ++ arrivals events := by
  induction events with
  | nil => intro s; simp [arrivals]
  | cons e rest ih =>
    intro s
    obtain ⟨q, p, ex⟩ := s
    cases e with
    | message item =>
      rw [List.foldl_cons, ih]
      simp only [qStep, queueProcessor, arrivals, List.filterMap_cons]
      rw [queueDrain_exec_queue]
      simp [arrivals]
    | audioEnded =>
      rw [List.foldl_cons, ih]
      simp only [qStep, queueProcessorCompletedAction, queueProcessor,
        arrivals, List.filterMap_cons]
      rw [queueDrain_exec_queue]

/-- C1: the sequencer executes enqueued actions in FIFO arrival order —
over any stimulus sequence, the trace of started actions followed by the
still-queued actions equals the arrival order, so the trace is always a
prefix of the arrivals; while the processing flag is set, an arriving
action is only appended to the queue and nothing is dequeued; and when the
in-flight action's completion signal (`queueProcessorCompletedAction`,
invoked directly for synchronous actions and by the audio `ended` listener
for playback actions) clears the flag, the next action in FIFO order is
the one started next. -/
theorem queue_fifo_c1 :
    (∀ events : List QEvent,
      (qRun events).executed ++ (qRun events).websocketQueue
        = arrivals events)
    ∧ (∀ (s : QState) (item : QItem), s.isQueueProcessing = true →
        queueProcessor (some item) s
          = { s with websocketQueue := s.websocketQueue ++ [item] })
    ∧ (∀ (s : QState) (item : QItem) (rest : List QItem),
        s.isQueueProcessing = true → s.websocketQueue = item :: rest →
        ((queueProcessorCompletedAction s).executed).take
            (s.executed.length + 1)
          = s.executed ++ [item]) := by
  refine ⟨?_, ?_, ?_⟩
  · intro events
    have h := qRun_fifo_aux events ⟨[], false, []⟩
    simp only [qRun]
    simp only at h
    rw [h]
    simp
  · intro s item h
    obtain ⟨q, p, ex⟩ := s
    simp only at h
    subst h
    simp only [queueProcessor, queueDrain_busy]
  · intro s item rest hflag hqueue
    obtain ⟨q, p, ex⟩ := s
    simp only at hflag hqueue
    subst hflag
    subst hqueue
    simp only [queueProcessorCompletedAction, queueProcessor, queueDrain]
    split
    · obtain ⟨t, ht⟩ := queueDrain_exec_extends rest false (ex ++ [item])
      rw [ht]
      have : ex ++ [item] ++ t = ex ++ item :: t := by simp
      rw [this, take_append_cons]
    · have h := take_append_cons ex item []
      simp only at h
      exact h

/-- Witness for C1: a concrete run (synchronous display, playback, display
queued during playback, then the `ended` signal), an enqueue attempt while
an action is in flight, and a completion that starts the next queued
action. -/
theorem queue_fifo_c1_witness :
    ((qRun [QEvent.message ⟨"DISPLAY_RESPONSE", "hello", ""⟩,
            QEvent.message ⟨"PLAY_RESPONSE", "url", ""⟩,
            QEvent.message ⟨"DISPLAY_FEEDBACK", "fb", ""⟩,
            QEvent.audioEnded]).executed
      ++ (qRun [QEvent.message ⟨"DISPLAY_RESPONSE", "hello", ""⟩,
            QEvent.message ⟨"PLAY_RESPONSE", "url", ""⟩,
            QEvent.message ⟨"DISPLAY_FEEDBACK", "fb", ""⟩,
            QEvent.audioEnded]).websocketQueue
      = arrivals [QEvent.message ⟨"DISPLAY_RESPONSE", "hello", ""⟩,
            QEvent.message ⟨"PLAY_RESPONSE", "url", ""⟩,
            QEvent.message ⟨"DISPLAY_FEEDBACK", "fb", ""⟩,
            QEvent.audioEnded])
    ∧ queueProcessor (some ⟨"DISPLAY_RESPONSE", "x", ""⟩)
        ⟨[⟨"WAIT", "w", "WAIT"⟩], true, [⟨"PLAY_RESPONSE", "u", ""⟩]⟩
      = ⟨[⟨"WAIT", "w", "WAIT"⟩, ⟨"DISPLAY_RESPONSE", "x", ""⟩], true,
         [⟨"PLAY_RESPONSE", "u", ""⟩]⟩
    ∧ ((queueProcessorCompletedAction
          ⟨[⟨"DISPLAY_RESPONSE", "y", ""⟩], true,
           [⟨"PLAY_RESPONSE", "u", ""⟩]⟩).executed).take
          ([⟨"PLAY_RESPONSE", "u", ""⟩] : List QItem).length.succ
      = [⟨"PLAY_RESPONSE", "u", ""⟩] ++ [⟨"DISPLAY_RESPONSE", "y", ""⟩] :=
  ⟨queue_fifo_c1.1 _,
   queue_fifo_c1.2.1 ⟨[⟨"WAIT", "w", "WAIT"⟩], true,
     [⟨"PLAY_RESPONSE", "u", ""⟩]⟩ ⟨"DISPLAY_RESPONSE", "x", ""⟩ rfl,
   queue_fifo_c1.2.2 ⟨[⟨"DISPLAY_RESPONSE", "y", ""⟩], true,
     [⟨"PLAY_RESPONSE", "u", ""⟩]⟩ ⟨"DISPLAY_RESPONSE", "y", ""⟩ [] rfl rfl⟩

/-! ## Claim C4: short utterances on a zero-result event -/

/-- C4 counterexample: with the pending buffer `"Hi"` (one token), a
zero-result event while not listening emits nothing and populates no UI
field, but — contrary to the claim — the buffers are not cleared: the
pending-utterance buffer still holds `"Hi"`. -/
theorem utterance_c4_counterexample :
    (handleEventStreamMessage (fun s => s) (fun s => some s) false true 0
        ⟨[]⟩ ⟨"", "Hi", none, "", false, []⟩).utterance = "Hi"
    ∧ (handleEventStreamMessage (fun s => s) (fun s => some s) false true 0
        ⟨[]⟩ ⟨"", "Hi", none, "", false, []⟩).sentUtterances = []
    ∧ (handleEventStreamMessage (fun s => s) (fun s => some s) false true 0
        ⟨[]⟩ ⟨"", "Hi", none, "", false, []⟩).inputTextValue = ""
    ∧ ("Hi" : String) ≠ ""
    ∧ (jsSplitNonWord (jsTrim "Hi")).length ≤ 2 := by decide

/-- C4 amended: for every transcript event with zero results arriving
while `isListening` is false, when the pending utterance buffer splits
into at most 2 tokens the event is discarded silently as noise — no
utterance is emitted and no UI field is populated — and the handler leaves
the state entirely unchanged; in particular the two buffers retain their
contents rather than being cleared. -/
theorem utterance_c4_amended (decURI : String → String)
    (escDec : String → Option String) (audioOnly : Bool) (now : ℕ)
    (s : UState)
    (htok : (jsSplitNonWord (jsTrim s.utterance)).length ≤ 2) :
    handleEventStreamMessage decURI escDec false audioOnly now ⟨[]⟩ s = s := by
  have h : ¬ (2 < (jsSplitNonWord (jsTrim s.utterance)).length) := by omega
  simp [handleEventStreamMessage, h]

/-! ## Claim C3: one utterance per finalized-then-silent sequence -/

/-- Appending to the empty string is the identity. -/
theorem str_empty_append (s : String) : "" ++ s = s := rfl

/-- Emitting step of `handleEventStreamMessage`: a zero-result event while
not listening, with a pending buffer of more than 2 tokens that the
best-effort re-decode maps to itself, populates the text field with a
space and the buffer, enables the send button, auto-clicks send in
audio-only mode, and clears both buffers. -/
theorem handle_zero_emit (decURI : String → String)
    (escDec : String → Option String) (ao : Bool) (now : ℕ) (s : UState)
    (htok : 2 < (jsSplitNonWord (jsTrim s.utterance)).length)
    (hesc : escDec s.utterance = some s.utterance) :
    handleEventStreamMessage decURI escDec false ao now ⟨[]⟩ s
      = { (if ao then
            sendButtonClick
              { s with inputTextValue := s.inputTextValue ++ " " ++ s.utterance,
                       sendButtonEnabled := true }
          else
            { s with inputTextValue := s.inputTextValue ++ " " ++ s.utterance,
                     sendButtonEnabled := true }) with
          utterance := "", transcription := "" } := by
  simp only [handleEventStreamMessage]
  rw [if_pos trivial, if_pos htok, hesc]

/-- Interim (partial) transcript events touch only the
`utteranceLastEvent` timestamp: buffers, text field, button state and the
dispatch trace are unchanged. -/
theorem handle_interim (decURI : String → String)
    (escDec : String → Option String) (b ao : Bool) (now : ℕ)
    (ev : TEvent) (s : UState) (h : interimEvent ev = true) :
    (handleEventStreamMessage decURI escDec b ao now ev s).transcription
        = s.transcription
    ∧ (handleEventStreamMessage decURI escDec b ao now ev s).utterance
        = s.utterance
    ∧ (handleEventStreamMessage decURI escDec b ao now ev s).inputTextValue
        = s.inputTextValue
    ∧ (handleEventStreamMessage decURI escDec b ao now ev s).sendButtonEnabled
        = s.sendButtonEnabled
    ∧ (handleEventStreamMessage decURI escDec b ao now ev s).sentUtterances
        = s.sentUtterances := by
  obtain ⟨results⟩ := ev
  cases results with
  | nil => simp [interimEvent] at h
  | cons r rest =>
    obtain ⟨ri, ralts⟩ := r
    simp only [interimEvent] at h
    subst h
    cases ralts with
    | nil => simp [handleEventStreamMessage]
    | cons a as => simp [handleEventStreamMessage]

/-- Folding any number of interim events preserves the same five
components. -/
theorem run_interim (decURI : String → String)
    (escDec : String → Option String) (ao : Bool) (now : ℕ)
    (events : List (Bool × TEvent)) :
    ∀ s : UState, (∀ p ∈ events, interimEvent p.2 = true) →
      (runUtterance decURI escDec ao now events s).transcription
          = s.transcription
      ∧ (runUtterance decURI escDec ao now events s).utterance = s.utterance
      ∧ (runUtterance decURI escDec ao now events s).inputTextValue
          = s.inputTextValue
      ∧ (runUtterance decURI escDec ao now events s).sendButtonEnabled
          = s.sendButtonEnabled
      ∧ (runUtterance decURI escDec ao now events s).sentUtterances
          = s.sentUtterances := by
  induction events with
  | nil => intro s _; simp [runUtterance]
  | cons e rest ih =>
    intro s h
    have h1 := handle_interim decURI escDec e.1 ao now e.2 s
      (h e (by simp))
    have h2 := ih (handleEventStreamMessage decURI escDec e.1 ao now e.2 s)
      (fun p hp => h p (by simp [hp]))
    simp only [runUtterance, List.foldl_cons] at h2 ⊢
    obtain ⟨a1, a2, a3, a4, a5⟩ := h1
    obtain ⟨b1, b2, b3, b4, b5⟩ := h2
    exact ⟨b1.trans a1, b2.trans a2, b3.trans a3, b4.trans a4, b5.trans a5⟩

/-- C3: after any number of interim (partial) transcript events, a final
(non-interim) result whose resulting pending buffer splits into more than
2 tokens, and then a zero-result event arriving while not listening,
exactly one utterance is emitted: the outgoing text field is populated
with the concatenation of the finalized fragments (each fragment carrying
the `"\n"` separator appended on finalization, the whole prefixed by the
single space the population step inserts) and sending is enabled; in
audio-only mode the send is auto-triggered, dispatching exactly that text
and clearing the field again. Interim results contribute nothing to the
emitted text, and both buffers end cleared. -/
theorem utterance_c3 (decURI : String → String)
    (escDec : String → Option String) (audioOnly : Bool) (now : ℕ)
    (parts : List (Bool × TEvent))
    (hparts : ∀ p ∈ parts, interimEvent p.2 = true)
    (bFinal : Bool) (r : TResult) (rs : List TResult) (a : Alt)
    (alts : List Alt) (hfin : r.interim = false)
    (halts : r.alternatives = a :: alts)
    (htok : 2 < (jsSplitNonWord (jsTrim (decURI a.transcript ++ "\n"))).length)
    (hesc : escDec (decURI a.transcript ++ "\n")
        = some (decURI a.transcript ++ "\n")) :
    (runUtterance decURI escDec audioOnly now
        (parts ++ [(bFinal, ⟨r :: rs⟩), (false, ⟨[]⟩)])
        initUState).sentUtterances
      = (if audioOnly then [" " ++ (decURI a.transcript ++ "\n")] else [])
    ∧ (runUtterance decURI escDec audioOnly now
        (parts ++ [(bFinal, ⟨r :: rs⟩), (false, ⟨[]⟩)])
        initUState).inputTextValue
      = (if audioOnly then "" else " " ++ (decURI a.transcript ++ "\n"))
    ∧ (runUtterance decURI escDec audioOnly now
        (parts ++ [(bFinal, ⟨r :: rs⟩), (false, ⟨[]⟩)])
        initUState).sendButtonEnabled = !audioOnly
    ∧ (runUtterance decURI escDec audioOnly now
        (parts ++ [(bFinal, ⟨r :: rs⟩), (false, ⟨[]⟩)])
        initUState).utterance = ""
    ∧ (runUtterance decURI escDec audioOnly now
        (parts ++ [(bFinal, ⟨r :: rs⟩), (false, ⟨[]⟩)])
        initUState).transcription = "" := by
  obtain ⟨ri, ralts⟩ := r
  simp only at hfin halts
  subst hfin
  subst halts
  have hsplit : runUtterance decURI escDec audioOnly now
      (parts ++ [(bFinal, ⟨⟨false, a :: alts⟩ :: rs⟩), (false, ⟨[]⟩)])
      initUState
    = handleEventStreamMessage decURI escDec false audioOnly now ⟨[]⟩
        (handleEventStreamMessage decURI escDec bFinal audioOnly now
          ⟨⟨false, a :: alts⟩ :: rs⟩
          (runUtterance decURI escDec audioOnly now parts initUState)) := by
    simp [runUtterance, List.foldl_append]
  obtain ⟨m1, m2, m3, m4, m5⟩ :=
    run_interim decURI escDec audioOnly now parts initUState hparts
  generalize hgen : runUtterance decURI escDec audioOnly now parts initUState
    = m at hsplit m1 m2 m3 m4 m5
  simp only [initUState] at m1 m2 m3 m4 m5
  rw [hsplit]
  have hfinal : handleEventStreamMessage decURI escDec bFinal audioOnly now
      ⟨⟨false, a :: alts⟩ :: rs⟩ m
      = { m with utteranceLastEvent := some now,
                 utterance := decURI a.transcript ++ "\n",
                 transcription := "" } := by
    simp only [handleEventStreamMessage]
    rw [m1, m2, if_pos trivial]
    rw [str_empty_append, str_empty_append]
  rw [hfinal]
  rw [handle_zero_emit decURI escDec audioOnly now
    { m with utteranceLastEvent := some now,
             utterance := decURI a.transcript ++ "\n",
             transcription := "" } htok hesc]
  have hin : ({ m with utteranceLastEvent := some now,
                       utterance := decURI a.transcript ++ "\n",
                       transcription := "" } : UState).inputTextValue
      = m.inputTextValue := rfl
  cases audioOnly with
  | true =>
    rw [if_pos rfl]
    simp only [sendButtonClick]
    have hlen : 0 < (({ m with utteranceLastEvent := some now,
                               utterance := decURI a.transcript ++ "\n",
                               transcription := "" } : UState).inputTextValue
          ++ " " ++ (decURI a.transcript ++ "\n")).length := by
      rw [hin, m3, str_empty_append, String.length_append]
      have h1 : (" ").length = 1 := rfl
      omega
    rw [if_pos hlen]
    simp only [if_true, Bool.not_true]
    refine ⟨?_, by trivial, by trivial, by trivial, by trivial⟩
    show m.sentUtterances
        ++ [m.inputTextValue ++ " " ++ (decURI a.transcript ++ "\n")]
      = [" " ++ (decURI a.transcript ++ "\n")]
    rw [m5, m3, str_empty_append]
    rfl
  | false =>
    rw [if_neg (by simp)]
    simp only [if_false, Bool.not_false]
    refine ⟨?_, ?_, by trivial, by trivial, by trivial⟩
    · exact m5
    · show m.inputTextValue ++ " " ++ (decURI a.transcript ++ "\n")
        = " " ++ (decURI a.transcript ++ "\n")
      rw [m3, str_empty_append]

/-- Witness for C3: one interim fragment followed by the finalized
fragment `"tell me about movies"` and the zero-result signal, in
audio-only mode, with the browser decoding functions acting as identities
on this ASCII text. -/
theorem utterance_c3_witness :
    (∀ p ∈ [((true : Bool), (⟨[⟨true, [⟨"uh"⟩]⟩]⟩ : TEvent))],
      interimEvent p.2 = true)
    ∧ (⟨false, [⟨"tell me about movies"⟩]⟩ : TResult).interim = false
    ∧ 2 < (jsSplitNonWord (jsTrim ((fun s => s) "tell me about movies"
        ++ "\n"))).length
    ∧ (runUtterance (fun s => s) (fun s => some s) true 0
        ([((true : Bool), (⟨[⟨true, [⟨"uh"⟩]⟩]⟩ : TEvent))]
          ++ [(false, ⟨[⟨false, [⟨"tell me about movies"⟩]⟩]⟩),
              (false, ⟨[]⟩)]) initUState).sentUtterances
      = (if (true : Bool) then
          [" " ++ ((fun s => s) "tell me about movies" ++ "\n")] else []) :=
  ⟨by decide, rfl, by decide,
   (utterance_c3 (fun s => s) (fun s => some s) true 0
     [((true : Bool), (⟨[⟨true, [⟨"uh"⟩]⟩]⟩ : TEvent))] (by decide)
     false ⟨false, [⟨"tell me about movies"⟩]⟩ [] ⟨"tell me about movies"⟩
     [] rfl rfl (by decide) rfl).1⟩

/-- Witness for C4 at the buffer `"Hi"`. -/
theorem utterance_c4_amended_witness :
    (jsSplitNonWord (jsTrim "Hi")).length ≤ 2
    ∧ handleEventStreamMessage (fun s => s) (fun s => some s) false true 0
        ⟨[]⟩ ⟨"", "Hi", none, "", false, []⟩ = ⟨"", "Hi", none, "", false, []⟩ :=
  ⟨by decide,
   utterance_c4_amended (fun s => s) (fun s => some s) true 0
     ⟨"", "Hi", none, "", false, []⟩ (by decide)⟩

/-! ## Claim C5: downsampling identity, length, and window means -/

/-- JavaScript rounding of an integral (natural) value is the identity. -/
theorem jsRound_natCast (n : ℕ) : jsRound (n : ℚ) = n := by
  simp only [jsRound]
  rw [Int.floor_eq_iff]
  constructor
  · push_cast
    linarith
  · push_cast
    linarith

/-- Window boundary zero: the loop starts at `offsetBuffer = 0`, which
agrees with `Math.round(0 * ratio)`. -/
theorem dsOffset_zero (r : ℚ) : dsOffset r 0 = 0 := by
  simp only [dsOffset, Nat.cast_zero, zero_mul, jsRound, zero_add]
  rw [Int.floor_eq_iff]
  norm_num

/-- Boundary computed inside the loop coincides with `dsOffset` at the
next index. -/
theorem dsOffset_succ_cast (r : ℚ) (j : ℕ) :
    jsRound (((j : ℚ) + 1) * r) = dsOffset r (j + 1) := by
  simp only [dsOffset]
  have h : ((j + 1 : ℕ) : ℚ) = (j : ℚ) + 1 := by push_cast; ring
  rw [h]

/-- The loop of `downsampleBuffer`, started at output index `j` with the
matching boundary, produces exactly the window means for indices
`j, j+1, ...`. -/
theorem dsLoop_map (buffer : List ℚ) (r : ℚ) :
    ∀ (n j : ℕ), dsLoop buffer r n (dsOffset r j) j
      = (List.range n).map (fun m => dsSample buffer r (j + m)) := by
  intro n
  induction n with
  | zero => intro j; simp [dsLoop]
  | succ n ih =>
    intro j
    simp only [dsLoop]
    rw [dsOffset_succ_cast, ih (j + 1), List.range_succ_eq_map,
      List.map_cons, List.map_map]
    congr 1
    apply List.map_congr_left
    intro a _
    simp only [Function.comp_apply]
    have h : j + 1 + a = j + (a + 1) := by omega
    rw [h]

/-- With distinct rates, `downsampleBuffer` is the table of window means
of length `Math.round(length / ratio)`. -/
theorem downsampleBuffer_map (buffer : List ℚ) (inR outR : ℚ)
    (hne : outR ≠ inR) :
    downsampleBuffer buffer inR outR
      = (List.range ((jsRound ((buffer.length : ℚ) / (inR / outR))).toNat)).map
          (dsSample buffer (inR / outR)) := by
  simp only [downsampleBuffer, if_neg hne]
  rw [show (0 : ℤ) = dsOffset (inR / outR) 0 from (dsOffset_zero _).symm]
  rw [dsLoop_map]
  simp

/-- Filtering a range by a predicate that holds exactly at `k < len`
yields the singleton `[k]`. -/
theorem range_filter_singleton (p : ℕ → Bool) (k : ℕ)
    (hp : ∀ i, p i = true ↔ i = k) :
    ∀ len, k < len → (List.range len).filter p = [k] := by
  intro len
  induction len with
  | zero => omega
  | succ n ih =>
    intro h
    rw [List.range_succ, List.filter_append]
    by_cases hk : k = n
    · subst hk
      have h1 : (List.range k).filter p = [] := by
        rw [List.filter_eq_nil_iff]
        intro a ha
        rw [List.mem_range] at ha
        intro hpa
        exact absurd ((hp a).mp hpa) (by omega)
      have hpk : p k = true := (hp k).mpr rfl
      simp [h1, List.filter_cons, hpk]
    · have hk' : k < n := by omega
      have hpn : p n = false := by
        cases hpn2 : p n
        · rfl
        · exact absurd ((hp n).mp hpn2) (fun he => hk he.symm)
      simp [ih hk', List.filter_cons, hpn]

/-- At ratio 1 every window is the singleton `[k]`. -/
theorem windowIdx_single (k len : ℕ) (h : k < len) :
    windowIdx (k : ℤ) ((k : ℤ) + 1) len = [k] := by
  simp only [windowIdx]
  refine range_filter_singleton _ k ?_ len h
  intro i
  simp only [decide_eq_true_eq]
  omega

/-- At ratio 1 the window mean at `k` is the sample at `k`. -/
theorem dsSample_one (buffer : List ℚ) (k : ℕ) (h : k < buffer.length) :
    dsSample buffer 1 k = buffer.getD k 0 := by
  have h1 : dsOffset 1 k = (k : ℤ) := by
    simp only [dsOffset, mul_one]
    exact jsRound_natCast k
  have h2 : dsOffset 1 (k + 1) = (k : ℤ) + 1 := by
    simp only [dsOffset, mul_one]
    rw [jsRound_natCast]
    push_cast
    ring
  simp only [dsSample, h1, h2, windowVals, windowIdx_single k buffer.length h]
  simp

/-- C5: downsampling with equal rates returns the input unchanged; for
positive rates the output length equals `round(inputLength / R)` for
`R = inputSampleRate / outputSampleRate`; and each output sample `k` is
the arithmetic mean (`accum / count`) of the input samples in the window
`[round(k*R), round((k+1)*R))` clipped to the buffer range. -/
theorem downsample_c5 (buffer : List ℚ)
    (inputSampleRate outputSampleRate : ℚ)
    (hin : 0 < inputSampleRate) (hout : 0 < outputSampleRate) :
    (outputSampleRate = inputSampleRate →
      downsampleBuffer buffer inputSampleRate outputSampleRate = buffer)
    ∧ (downsampleBuffer buffer inputSampleRate outputSampleRate).length
        = (jsRound ((buffer.length : ℚ)
            / (inputSampleRate / outputSampleRate))).toNat
    ∧ ∀ k,
        k < (downsampleBuffer buffer inputSampleRate outputSampleRate).length →
        (downsampleBuffer buffer inputSampleRate outputSampleRate).getD k 0
          = dsSample buffer (inputSampleRate / outputSampleRate) k := by
  refine ⟨?_, ?_, ?_⟩
  · intro heq
    simp [downsampleBuffer, heq]
  · by_cases heq : outputSampleRate = inputSampleRate
    · subst heq
      rw [show downsampleBuffer buffer outputSampleRate outputSampleRate
          = buffer from by simp [downsampleBuffer]]
      rw [div_self (ne_of_gt hout), div_one, jsRound_natCast]
      omega
    · rw [downsampleBuffer_map buffer _ _ heq]
      simp
  · intro k hk
    by_cases heq : outputSampleRate = inputSampleRate
    · subst heq
      have hid : downsampleBuffer buffer outputSampleRate outputSampleRate
          = buffer := by simp [downsampleBuffer]
      rw [hid] at hk ⊢
      rw [div_self (ne_of_gt hout)]
      exact (dsSample_one buffer k hk).symm
    · rw [downsampleBuffer_map buffer _ _ heq] at hk ⊢
      rw [List.getD_eq_getElem _ _ (by simpa using hk)]
      rw [List.getElem_map, List.getElem_range]

/-- Witness for C5 at equal rates 16000 with a 3-sample buffer. -/
theorem downsample_c5_witness :
    (0 : ℚ) < 16000
    ∧ downsampleBuffer [1, 2, 3] 16000 16000 = [1, 2, 3]
    ∧ (downsampleBuffer [1, 2, 3] 16000 16000).length
        = (jsRound ((([1, 2, 3] : List ℚ).length : ℚ)
            / ((16000 : ℚ) / (16000 : ℚ)))).toNat
    ∧ 0 < (downsampleBuffer [1, 2, 3] 16000 16000).length
    ∧ (downsampleBuffer [1, 2, 3] 16000 16000).getD 0 0
        = dsSample [1, 2, 3] ((16000 : ℚ) / (16000 : ℚ)) 0 :=
  ⟨by decide,
   (downsample_c5 [1, 2, 3] 16000 16000 (by decide) (by decide)).1 rfl,
   (downsample_c5 [1, 2, 3] 16000 16000 (by decide) (by decide)).2.1,
   by decide,
   (downsample_c5 [1, 2, 3] 16000 16000 (by decide) (by decide)).2.2 0
     (by decide)⟩

/-! ## Claim C10: window counts are positive when truly downsampling -/

/-- The output length `Math.round(length / (inR/outR))` written with
natural-number arithmetic, for natural rates. -/
theorem newLength_nat (len inR outR : ℕ) (hin : 0 < inR) (hout : 0 < outR) :
    (jsRound ((len : ℚ) / ((inR : ℚ) / (outR : ℚ)))).toNat
      = (2 * len * outR + inR) / (2 * inR) := by
  have hinQ : ((inR : ℚ)) ≠ 0 := Nat.cast_ne_zero.mpr (by omega)
  have houtQ : ((outR : ℚ)) ≠ 0 := Nat.cast_ne_zero.mpr (by omega)
  have harg : (len : ℚ) / ((inR : ℚ) / (outR : ℚ)) + 1/2
      = (((2 * len * outR + inR : ℕ) : ℤ) : ℚ) / ((2 * inR : ℕ) : ℚ) := by
    push_cast
    field_simp
    ring
  simp only [jsRound]
  rw [harg, Rat.floor_intCast_div_natCast]
  rw [show (((2 * len * outR + inR : ℕ) : ℤ)) / ((2 * inR : ℕ) : ℤ)
      = (((2 * len * outR + inR) / (2 * inR) : ℕ) : ℤ) from
    (Int.natCast_div _ _).symm]
  exact Int.toNat_natCast _

/-- Core of C10: when the ratio exceeds 1, every window of an in-range
output index contains at least one input sample. -/
theorem dsWindowCount_pos (buffer : List ℚ) (r : ℚ) (hr1 : 1 < r)
    (k : ℕ) (hk : k < (jsRound ((buffer.length : ℚ) / r)).toNat) :
    1 ≤ dsWindowCount buffer r k := by
  have hrpos : 0 < r := lt_trans one_pos hr1
  have hkQ : ((k : ℚ) + 1) ≤ (buffer.length : ℚ) / r + 1/2 := by
    have h1 : (k : ℤ) < jsRound ((buffer.length : ℚ) / r) := Int.lt_toNat.mp hk
    have h2 : (k : ℤ) + 1 ≤ ⌊(buffer.length : ℚ) / r + 1/2⌋ := by
      simp only [jsRound] at h1
      omega
    have h3 := Int.le_floor.mp h2
    push_cast at h3
    linarith
  have hL0 : 0 ≤ dsOffset r k := by
    simp only [dsOffset, jsRound]
    exact Int.floor_nonneg.mpr (by positivity)
  have hLlen : dsOffset r k < (buffer.length : ℤ) := by
    simp only [dsOffset, jsRound]
    rw [Int.floor_lt]
    have h4 : (k : ℚ) ≤ (buffer.length : ℚ) / r - 1/2 := by linarith
    have h5 := mul_le_mul_of_nonneg_right h4 (le_of_lt hrpos)
    rw [sub_mul, div_mul_cancel₀ _ (ne_of_gt hrpos)] at h5
    push_cast
    have h6 : 1/2 < r/2 := by linarith
    have h7 : (1:ℚ)/2 * r = r/2 := by ring
    rw [h7] at h5
    linarith
  have hLU : dsOffset r k < dsOffset r (k + 1) := by
    simp only [dsOffset, jsRound]
    have hcast : ((k + 1 : ℕ) : ℚ) = (k : ℚ) + 1 := by push_cast; ring
    rw [hcast]
    have hexp : ((k : ℚ) + 1) * r = (k : ℚ) * r + r := by ring
    have h6 : (k : ℚ) * r + 1/2 + 1 ≤ ((k : ℚ) + 1) * r + 1/2 := by
      rw [hexp]
      linarith
    calc ⌊(k : ℚ) * r + 1/2⌋ < ⌊(k : ℚ) * r + 1/2⌋ + 1 := by omega
      _ = ⌊(k : ℚ) * r + 1/2 + 1⌋ := (Int.floor_add_one _).symm
      _ ≤ ⌊((k : ℚ) + 1) * r + 1/2⌋ := Int.floor_mono h6
  have hcast2 : (((dsOffset r k).toNat : ℤ)) = dsOffset r k :=
    Int.toNat_of_nonneg hL0
  have hmem : (dsOffset r k).toNat
      ∈ windowIdx (dsOffset r k) (dsOffset r (k + 1)) buffer.length := by
    simp only [windowIdx, List.mem_filter, List.mem_range, decide_eq_true_eq]
    refine ⟨by omega, ?_, ?_⟩
    · rw [hcast2]
    · rw [hcast2]
      exact hLU
  have hne := List.ne_nil_of_mem hmem
  have hpos := List.length_pos.mpr hne
  simp only [dsWindowCount]
  omega

/-- C10: for a non-empty buffer with natural rates and
`outputSampleRate < inputSampleRate` (true downsampling), every averaging
window of an in-range output index contains at least one input sample
(`count >= 1`), so the `accum / count` division is never 0/0; with
`inputSampleRate < outputSampleRate` this guarantee fails: at rates 1 and
2 and a 3-sample buffer, the in-range output index 1 has an empty window
(`count = 0`, NaN in the source). -/
theorem downsample_c10 :
    (∀ (buffer : List ℚ) (inR outR : ℕ), buffer ≠ [] → 0 < outR →
      outR < inR →
      ∀ k, k < (2 * buffer.length * outR + inR) / (2 * inR) →
        1 ≤ dsWindowCount buffer ((inR : ℚ) / (outR : ℚ)) k)
    ∧ ((1 : ℕ) < 2
      ∧ dsWindowCount (List.replicate 3 (0 : ℚ)) ((1 : ℚ) / (2 : ℚ)) 1 = 0
      ∧ 1 < (jsRound (((List.replicate 3 (0 : ℚ)).length : ℚ)
          / ((1 : ℚ) / (2 : ℚ)))).toNat) := by
  constructor
  · intro buffer inR outR _hbuf hout hin k hk
    have hinN : 0 < inR := lt_trans hout hin
    rw [← newLength_nat buffer.length inR outR hinN hout] at hk
    have hr1 : 1 < (inR : ℚ) / (outR : ℚ) := by
      rw [one_lt_div (by exact_mod_cast hout)]
      exact_mod_cast hin
    exact dsWindowCount_pos buffer _ hr1 k hk
  · refine ⟨by norm_num, ?_, ?_⟩
    · have h1 : dsOffset ((1 : ℚ) / 2) 1 = 1 := by
        simp only [dsOffset, jsRound]
        rw [show ((1 : ℕ) : ℚ) * ((1 : ℚ) / 2) + 1/2 = 1 by norm_num]
        exact Int.floor_one
      have h2 : dsOffset ((1 : ℚ) / 2) 2 = 1 := by
        simp only [dsOffset, jsRound]
        rw [show ((2 : ℕ) : ℚ) * ((1 : ℚ) / 2) + 1/2 = 3/2 by norm_num]
        rw [Int.floor_eq_iff]
        norm_num
      simp only [dsWindowCount, h1, h2]
      rw [show (List.replicate 3 (0 : ℚ)).length = 3 from rfl]
      decide
    · rw [show (List.replicate 3 (0 : ℚ)).length = 3 from rfl]
      rw [show ((3 : ℕ) : ℚ) / ((1 : ℚ) / (2 : ℚ)) = 6 by norm_num]
      simp only [jsRound]
      rw [show ((6 : ℚ) + 1/2) = 13/2 by norm_num]
      rw [show ⌊(13/2 : ℚ)⌋ = 6 from by rw [Int.floor_eq_iff]; norm_num]
      decide

/-- Witness for C10: a 4-sample buffer downsampled from rate 4 to rate 2,
output index 0. -/
theorem downsample_c10_witness :
    ([0, 0, 0, 0] : List ℚ) ≠ []
    ∧ (0 : ℕ) < 2
    ∧ (2 : ℕ) < 4
    ∧ 0 < (2 * ([0, 0, 0, 0] : List ℚ).length * 2 + 4) / (2 * 4)
    ∧ 1 ≤ dsWindowCount ([0, 0, 0, 0] : List ℚ) ((4 : ℚ) / (2 : ℚ)) 0 :=
  ⟨by decide, by decide, by decide, by decide,
   downsample_c10.1 [0, 0, 0, 0] 4 2 (by decide) (by decide) (by decide) 0
     (by decide)⟩

end VoiceChat
